import Mathlib

/-!
Verification of the cursor/viewport/line-model engine of a multi-line
terminal text-input widget.  Strings are modelled as `List Char`; every
definition is translated from the TypeScript sources
(`src/utils.tsx`, `src/MultilineInput.tsx`, `src/ControlledMultilineInput.tsx`).
-/

namespace Ink

/-- Model of `utils.expandTabs`: each tab becomes `tabSize` spaces. -/
def expandTabs (text : List Char) (tabSize : Nat) : List Char :=
  match text with
  | [] => []
  | c :: rest =>
    (if c = '\t' then List.replicate tabSize ' ' else [c]) ++ expandTabs rest tabSize

/-- First pass of `utils.normalizeLineEndings`: the global replacement of
the two-character sequence CR LF by LF, scanning left to right. -/
def replaceCRLF : List Char → List Char
  | [] => []
  | [c] => [c]
  | c :: d :: rest =>
    if c = '\r' ∧ d = '\n' then '\n' :: replaceCRLF rest
    else c :: replaceCRLF (d :: rest)

/-- Model of `utils.normalizeLineEndings`: CRLF → LF, then every remaining CR → LF. -/
def normalizeLineEndings (text : List Char) : List Char :=
  (replaceCRLF text).map (fun c => if c = '\r' then '\n' else c)

/-- JavaScript `String.prototype.split("\n")`: an empty string yields one
empty line, a trailing newline yields a trailing empty line. -/
def splitOnNl : List Char → List (List Char)
  | [] => [[]]
  | c :: rest =>
    let r := splitOnNl rest
    if c = '\n' then [] :: r
    else
      match r with
      | [] => [[c]]
      | l :: ls => (c :: l) :: ls

/-- The cursor-location loop of the arrow-key handlers in
`MultilineInput.tsx`: scan the lines accumulating `currentPos`; the first
line whose inclusive span contains the cursor wins; if no line matches the
initial values `(0, 0)` remain. -/
def locateGo : List (List Char) → Nat → Nat → Nat → Nat × Nat
  | [], _, _, _ => (0, 0)
  | line :: rest, cursorIndex, i, currentPos =>
    if currentPos ≤ cursorIndex ∧ cursorIndex ≤ currentPos + line.length then
      (i, cursorIndex - currentPos)
    else
      locateGo rest cursorIndex (i + 1) (currentPos + line.length + 1)

/-- Locate the cursor's (lineIndex, column) pair, as the up/down-arrow
handlers of `MultilineInput.tsx` do. -/
def locate (lines : List (List Char)) (cursorIndex : Nat) : Nat × Nat :=
  locateGo lines cursorIndex 0 0

/-- Sum of `line.length + 1` over a list of lines. -/
def sumLenPlus (ls : List (List Char)) : Nat :=
  (ls.map (fun l => l.length + 1)).sum

/-- The absolute-offset reconstruction loop of the arrow-key handlers:
`newIndex = Σ_{i < lineIndex} (lines[i].length + 1) + col`. -/
def toOffset (lines : List (List Char)) (lineIndex col : Nat) : Nat :=
  sumLenPlus (lines.take lineIndex) + col

/-- JavaScript slice-index clamping: a negative index counts from the end
(clamped at 0), a non-negative index is clamped to the length. -/
def jsIdx (len : Nat) (i : Int) : Nat :=
  if i < 0 then ((len : Int) + i).toNat else min i.toNat len

/-- JavaScript `String.prototype.slice(a, b)`. -/
def jsSlice (s : List Char) (a b : Int) : List Char :=
  (s.take (jsIdx s.length b)).drop (jsIdx s.length a)

/-- JavaScript `String.prototype.slice(a)` (one-argument form). -/
def jsSliceFrom (s : List Char) (a : Int) : List Char :=
  s.drop (jsIdx s.length a)

/-- JavaScript `String.prototype.indexOf(c)`: first index, or -1. -/
def indexOfChar (s : List Char) (c : Char) : Int :=
  match s.findIdx? (· = c) with
  | some i => (i : Int)
  | none => -1

/-- JavaScript `String.prototype.lastIndexOf(c)`: last index, or -1. -/
def lastIndexOfChar (s : List Char) (c : Char) : Int :=
  match s.reverse.findIdx? (· = c) with
  | some i => (s.length : Int) - 1 - (i : Int)
  | none => -1

/-- The mask replacement of `formatText`: the regex replace of every
non-newline character by the mask string. -/
def applyMask (s mask : List Char) : List Char :=
  match s with
  | [] => []
  | c :: rest => (if c = '\n' then ['\n'] else mask) ++ applyMask rest mask

/-- Model of `formatText` of `ControlledMultilineInput.tsx`: normalize line endings,
then either replace every non-newline character by the mask (when a mask is
set and the text is not the placeholder) or expand tabs. -/
def formatText (mask : List Char) (tabSize : Nat) (isPlaceholder : Bool)
    (text : List Char) : List Char :=
  let normalized := normalizeLineEndings text
  if isPlaceholder = false ∧ mask ≠ [] then applyMask normalized mask
  else expandTabs normalized tabSize

/-- Validity of an explicit highlight range, as checked by the render
segmenter: `start < end`, `start >= 0`, `end <= length(value)`. -/
def validHighlightRange (len : Nat) (hs he : Int) : Prop :=
  hs < he ∧ 0 ≤ hs ∧ he ≤ (len : Int)

instance (len : Nat) (hs he : Int) : Decidable (validHighlightRange len hs he) :=
  inferInstanceAs (Decidable (_ ∧ _ ∧ _))

/-- The segmenter's `hasValidHighlight` check: the highlight is present and
its range is valid for the buffer length. -/
def hasValidHighlight (highlight : Option (Int × Int)) (len : Nat) : Prop :=
  match highlight with
  | some (hs, he) => validHighlightRange len hs he
  | none => False

instance (highlight : Option (Int × Int)) (len : Nat) :
    Decidable (hasValidHighlight highlight len) :=
  match highlight with
  | some (hs, he) => inferInstanceAs (Decidable (validHighlightRange len hs he))
  | none => isFalse (fun hf => hf)

/-- The paste-highlight derivation of `MultilineInput.tsx`: when
paste-highlighting is on and the last paste length exceeds 1, the range is
`[max(0, cursor - pasteLength), cursor]`. -/
def pasteHighlight (highlightPastedText : Bool) (cursorIndex pasteLength : Nat) :
    Option (Int × Int) :=
  if highlightPastedText ∧ 1 < pasteLength then
    some (max 0 ((cursorIndex : Int) - (pasteLength : Int)), (cursorIndex : Int))
  else none

/-- Styled-segment kinds (`type` of `StyledText`; `none` is plain). -/
inductive SegType where
  | placeholder : SegType
  | highlight : SegType
  | cursor : SegType
deriving DecidableEq

/-- One styled text segment. -/
structure StyledText where
  value : List Char
  type : Option SegType
deriving DecidableEq

/-- The segment sequences produced by the render segmenter: the group
before the cursor and the group after it. -/
structure Segments where
  preCursor : List StyledText
  postCursor : List StyledText
deriving DecidableEq

/-- The current-cursor-line branch of the segmenter: format both sides of
the cursor, find the cursor line's boundaries in the formatted halves, and
highlight that line; the cursor glyph is one space when
`showCursor && focus`, else empty. -/
def currentLineSegments (mask : List Char) (tabSize : Nat) (showCursor focus : Bool)
    (textBefore textAfter : List Char) : Segments :=
  let formattedBefore := formatText mask tabSize false textBefore
  let formattedAfter := formatText mask tabSize false textAfter
  let lineStart := lastIndexOfChar formattedBefore '\n' + 1
  let lineEnd := indexOfChar formattedAfter '\n'
  ⟨[⟨jsSlice formattedBefore 0 lineStart, none⟩,
    ⟨jsSliceFrom formattedBefore lineStart, some SegType.highlight⟩,
    ⟨if showCursor ∧ focus then [' '] else [], some SegType.cursor⟩],
   [⟨jsSlice formattedAfter 0 lineEnd, some SegType.highlight⟩,
    ⟨jsSliceFrom formattedAfter lineEnd, none⟩]⟩

/-- The valid-explicit-highlight branch of the segmenter: slice the raw
halves against the highlight bounds, formatting each piece after slicing;
the cursor glyph (one space) is emitted unconditionally. -/
def explicitSegments (mask : List Char) (tabSize : Nat)
    (textBefore textAfter : List Char) (cursorIndex : Nat) (hs he : Int) : Segments :=
  ⟨[⟨formatText mask tabSize false (jsSlice textBefore 0 hs), none⟩,
    ⟨formatText mask tabSize false
        (jsSlice textBefore hs (min he (cursorIndex : Int))), some SegType.highlight⟩,
    ⟨formatText mask tabSize false (jsSliceFrom textBefore he), none⟩,
    ⟨[' '], some SegType.cursor⟩],
   [⟨formatText mask tabSize false
        (jsSlice textAfter 0 (max ((hs - (cursorIndex : Int))) 0)), none⟩,
    ⟨formatText mask tabSize false
        (jsSlice textAfter (max ((hs - (cursorIndex : Int))) 0)
          (max ((he - (cursorIndex : Int))) 0)), some SegType.highlight⟩,
    ⟨formatText mask tabSize false
        (jsSliceFrom textAfter (max ((he - (cursorIndex : Int))) 0)), none⟩]⟩

/-- The render segmenter of `ControlledMultilineInput.tsx`: empty-value
placeholder/cursor handling, unfocused plain text, then either the
explicit-highlight branch (when the range is valid) or the
current-cursor-line branch. -/
def buildSegments (value : List Char) (cursorIndex : Nat) (focus showCursor : Bool)
    (placeholder mask : List Char) (tabSize : Nat)
    (highlight : Option (Int × Int)) : Segments :=
  if value = [] then
    if placeholder ≠ [] ∧ focus = false then
      ⟨[⟨formatText mask tabSize true placeholder, some SegType.placeholder⟩], []⟩
    else
      ⟨[⟨[' '], some SegType.cursor⟩], []⟩
  else
    let textBefore := value.take cursorIndex
    let textAfter := value.drop cursorIndex
    if focus = false then
      ⟨[⟨formatText mask tabSize false value, none⟩], []⟩
    else
      match highlight with
      | some (hs, he) =>
        if validHighlightRange value.length hs he then
          explicitSegments mask tabSize textBefore textAfter cursorIndex hs he
        else
          currentLineSegments mask tabSize showCursor focus textBefore textAfter
      | none =>
        currentLineSegments mask tabSize showCursor focus textBefore textAfter

/-- Is a segment the cursor-glyph segment? -/
def isCursorSeg (t : StyledText) : Bool :=
  match t.type with
  | some SegType.cursor => true
  | _ => false

/-- Concatenation of the text of all segments except the cursor glyph. -/
def nonCursorText (segs : Segments) : List Char :=
  (((segs.preCursor ++ segs.postCursor).filter (fun t => !(isCursorSeg t))).map
    (fun t => t.value)).flatten

/-- The cursor segments of a segmentation, in order. -/
def cursorSegs (segs : Segments) : List StyledText :=
  (segs.preCursor ++ segs.postCursor).filter (fun t => isCursorSeg t)

/-- The decoded-key descriptor delivered by the key-event source
(`return` is spelled `ret`). -/
structure Key where
  ret : Bool
  ctrl : Bool
  shift : Bool
  tab : Bool
  upArrow : Bool
  downArrow : Bool
  leftArrow : Bool
  rightArrow : Bool
  backspace : Bool
  delete : Bool

/-- Optional custom key bindings for submit / newline. -/
structure KeyBindings where
  submit : Option (Key → Bool)
  newline : Option (Key → Bool)

/-- Outcome of one key event: the next buffer value, cursor and paste
length, plus whether `onSubmit` resp. `onChange` was invoked. -/
structure HandlerResult where
  value : List Char
  cursorIndex : Nat
  pasteLength : Nat
  submitted : Bool
  changed : Bool

/-- The up-arrow block of the input handler of `MultilineInput.tsx`:
locate the cursor's line and column, and if not on the first line move to
the previous line with the column clamped to that line's length. -/
def upArrowResult (value : List Char) (cursorIndex pasteLength : Nat) : HandlerResult :=
  let lines := splitOnNl (normalizeLineEndings value)
  let located := locate lines cursorIndex
  if 0 < located.1 then
    match lines.get? (located.1 - 1) with
    | some targetLine =>
      ⟨value, toOffset lines (located.1 - 1) (min located.2 targetLine.length),
        0, false, false⟩
    | none => ⟨value, cursorIndex, pasteLength, false, false⟩
  else ⟨value, cursorIndex, pasteLength, false, false⟩

/-- The down-arrow block of the input handler of `MultilineInput.tsx`:
locate the cursor's line and column, and if not on the last line move to
the next line with the column clamped to that line's length. -/
def downArrowResult (value : List Char) (cursorIndex pasteLength : Nat) : HandlerResult :=
  let lines := splitOnNl (normalizeLineEndings value)
  let located := locate lines cursorIndex
  if located.1 < lines.length - 1 then
    match lines.get? (located.1 + 1) with
    | some targetLine =>
      ⟨value, toOffset lines (located.1 + 1) (min located.2 targetLine.length),
        0, false, false⟩
    | none => ⟨value, cursorIndex, pasteLength, false, false⟩
  else ⟨value, cursorIndex, pasteLength, false, false⟩

/-- The input handler of `MultilineInput.tsx` (the edit engine): one key
event, processed with the dispatch priority of the source. -/
def handleInput (keyBindings : KeyBindings) (showCursor : Bool)
    (value : List Char) (cursorIndex pasteLength : Nat)
    (input : List Char) (key : Key) : HandlerResult :=
  let submitKey := keyBindings.submit.getD (fun k => k.ret && k.ctrl)
  let newlineKey := keyBindings.newline.getD (fun k => k.ret)
  if submitKey key then
    ⟨value, cursorIndex, pasteLength, true, false⟩
  else if newlineKey key then
    ⟨value.take cursorIndex ++ '\n' :: value.drop cursorIndex,
      cursorIndex + 1, 0, false, true⟩
  else if key.tab ∨ (key.shift ∧ key.tab) ∨ (key.ctrl ∧ input = ['c']) then
    ⟨value, cursorIndex, pasteLength, false, false⟩
  else if (match keyBindings.newline with | some f => f key | none => false) then
    ⟨value.take cursorIndex ++ '\n' :: value.drop cursorIndex,
      cursorIndex + 1, 0, false, true⟩
  else
    let nextPasteLength := if 1 < input.length then input.length else 0
    if key.upArrow then
      if showCursor then upArrowResult value cursorIndex pasteLength
      else ⟨value, cursorIndex, pasteLength, false, false⟩
    else if key.downArrow then
      if showCursor then downArrowResult value cursorIndex pasteLength
      else ⟨value, cursorIndex, pasteLength, false, false⟩
    else if key.leftArrow then
      if showCursor then ⟨value, cursorIndex - 1, 0, false, false⟩
      else ⟨value, cursorIndex, pasteLength, false, false⟩
    else if key.rightArrow then
      if showCursor then ⟨value, min value.length (cursorIndex + 1), 0, false, false⟩
      else ⟨value, cursorIndex, pasteLength, false, false⟩
    else if key.ret then
      ⟨value.take cursorIndex ++ '\n' :: value.drop cursorIndex,
        cursorIndex + 1, 0, false, true⟩
    else if key.backspace ∨ key.delete then
      if 0 < cursorIndex then
        ⟨value.take (cursorIndex - 1) ++ value.drop cursorIndex,
          cursorIndex - 1, 0, false, true⟩
      else ⟨value, cursorIndex, pasteLength, false, false⟩
    else if input ≠ [] then
      ⟨value.take cursorIndex ++ input ++ value.drop cursorIndex,
        cursorIndex + input.length, nextPasteLength, false, true⟩
    else ⟨value, cursorIndex, pasteLength, false, false⟩

/-- The `visibleRows` memo of `ControlledMultilineInput.tsx`: when a
measured content height is available,
`max(rows ?? maxRows ?? 1, min(maxRows ?? rows ?? 1, contentHeight))`,
otherwise 1. -/
def visibleRows (rows maxRows : Option Nat) (contentHeight : Option Nat) : Nat :=
  match contentHeight with
  | some h => max (rows.getD (maxRows.getD 1)) (min (maxRows.getD (rows.getD 1)) h)
  | none => 1

/-- The scroll-offset updater of `ControlledMultilineInput.tsx`, run when
the measured heights change: `cursorLineEnd = markerHeight`; snap above /
below the window, and otherwise pull back only when `contentHeight` is
truthy (nonzero). -/
def nextScrollOffset (prevOffset visibleRowCount contentHeight markerHeight : Nat) : Nat :=
  let cursorLineEnd := markerHeight
  let viewportStart := prevOffset
  let viewportEnd := prevOffset + visibleRowCount
  if cursorLineEnd ≤ viewportStart then max 0 (cursorLineEnd - 1)
  else if viewportEnd < cursorLineEnd then cursorLineEnd - visibleRowCount
  else if contentHeight ≠ 0 then
    if contentHeight < visibleRowCount then 0
    else if contentHeight < viewportEnd then contentHeight - visibleRowCount
    else prevOffset
  else prevOffset

/-- Modelled from the spec: the scroll-update formula exactly as the claim
states it, with no truthiness guard on `contentHeight`. -/
def claimedScrollOffset (scrollOffset visibleRowCount contentHeight markerHeight : Nat) : Nat :=
  let cursorLineEnd := markerHeight
  if cursorLineEnd ≤ scrollOffset then max 0 (cursorLineEnd - 1)
  else if scrollOffset + visibleRowCount < cursorLineEnd then cursorLineEnd - visibleRowCount
  else if contentHeight < visibleRowCount then 0
  else if contentHeight < scrollOffset + visibleRowCount then contentHeight - visibleRowCount
  else scrollOffset

/-- Modelled from the spec: the claim's scroll-update formula amended so
that the two pull-back branches additionally require a nonzero measured
`contentHeight`; with `contentHeight = 0` the offset is left unchanged. -/
def amendedScrollOffset (scrollOffset visibleRowCount contentHeight markerHeight : Nat) : Nat :=
  let cursorLineEnd := markerHeight
  if cursorLineEnd ≤ scrollOffset then max 0 (cursorLineEnd - 1)
  else if scrollOffset + visibleRowCount < cursorLineEnd then cursorLineEnd - visibleRowCount
  else if 0 < contentHeight ∧ contentHeight < visibleRowCount then 0
  else if 0 < contentHeight ∧ contentHeight < scrollOffset + visibleRowCount then
    contentHeight - visibleRowCount
  else scrollOffset

/-- A key event with every flag cleared. -/
def noKey : Key := ⟨false, false, false, false, false, false, false, false, false, false⟩

/-- An up-arrow key event. -/
def upKey : Key := ⟨false, false, false, false, true, false, false, false, false, false⟩

/-- A down-arrow key event. -/
def downKey : Key := ⟨false, false, false, false, false, true, false, false, false, false⟩

/-- A backspace key event. -/
def backspaceKey : Key := ⟨false, false, false, false, false, false, false, false, true, false⟩

/-- A forward-delete key event. -/
def deleteKey : Key := ⟨false, false, false, false, false, false, false, false, false, true⟩

theorem upArrowResult_changed (value : List Char) (cursorIndex pasteLength : Nat) :
    (upArrowResult value cursorIndex pasteLength).changed = false := by
  unfold upArrowResult
  dsimp only
  split
  · split <;> rfl
  · rfl

theorem downArrowResult_changed (value : List Char) (cursorIndex pasteLength : Nat) :
    (downArrowResult value cursorIndex pasteLength).changed = false := by
  unfold downArrowResult
  dsimp only
  split
  · split <;> rfl
  · rfl

theorem replaceCRLF_eq_self (s : List Char) (h : '\r' ∉ s) : replaceCRLF s = s := by
  induction s using replaceCRLF.induct with
  | case1 => rfl
  | case2 c => rfl
  | case3 c d rest hcd ih =>
    exfalso
    apply h
    rw [hcd.1]
    exact List.mem_cons_self _ _
  | case4 c d rest hcd ih =>
    unfold replaceCRLF
    rw [if_neg hcd, ih]
    intro hm
    exact h (List.mem_cons_of_mem c hm)

theorem normalizeLineEndings_eq_self (s : List Char) (h : '\r' ∉ s) :
    normalizeLineEndings s = s := by
  unfold normalizeLineEndings
  rw [replaceCRLF_eq_self s h]
  induction s with
  | nil => rfl
  | cons a rest ih =>
    rw [List.map_cons]
    rw [List.mem_cons, not_or] at h
    rw [if_neg (fun hc => h.1 hc.symm), ih h.2]

theorem expandTabs_cons (c : Char) (rest : List Char) (ts : Nat) :
    expandTabs (c :: rest) ts =
      (if c = '\t' then List.replicate ts ' ' else [c]) ++ expandTabs rest ts := rfl

theorem expandTabs_append (a b : List Char) (ts : Nat) :
    expandTabs (a ++ b) ts = expandTabs a ts ++ expandTabs b ts := by
  induction a with
  | nil => rfl
  | cons c rest ih =>
    rw [List.cons_append, expandTabs_cons, expandTabs_cons, ih, List.append_assoc]

theorem applyMask_cons (c : Char) (rest mask : List Char) :
    applyMask (c :: rest) mask =
      (if c = '\n' then ['\n'] else mask) ++ applyMask rest mask := rfl

theorem applyMask_append (a b mask : List Char) :
    applyMask (a ++ b) mask = applyMask a mask ++ applyMask b mask := by
  induction a with
  | nil => rfl
  | cons c rest ih =>
    rw [List.cons_append, applyMask_cons, applyMask_cons, ih, List.append_assoc]

theorem formatText_append (mask : List Char) (ts : Nat) (a b : List Char)
    (ha : '\r' ∉ a) (hb : '\r' ∉ b) :
    formatText mask ts false (a ++ b) =
      formatText mask ts false a ++ formatText mask ts false b := by
  have hab : '\r' ∉ a ++ b := by
    rw [List.mem_append]
    rintro (hm | hm)
    · exact ha hm
    · exact hb hm
  unfold formatText
  dsimp only
  rw [normalizeLineEndings_eq_self _ hab, normalizeLineEndings_eq_self _ ha,
    normalizeLineEndings_eq_self _ hb]
  by_cases hmask : mask = []
  · rw [if_neg (fun hcon => hcon.2 hmask), if_neg (fun hcon => hcon.2 hmask),
      if_neg (fun hcon => hcon.2 hmask)]
    exact expandTabs_append a b ts
  · rw [if_pos ⟨rfl, hmask⟩, if_pos ⟨rfl, hmask⟩, if_pos ⟨rfl, hmask⟩]
    exact applyMask_append a b mask

theorem formatText_append3 (mask : List Char) (ts : Nat) (a b c : List Char)
    (ha : '\r' ∉ a) (hb : '\r' ∉ b) (hc : '\r' ∉ c) :
    formatText mask ts false (a ++ (b ++ c)) =
      formatText mask ts false a ++
        (formatText mask ts false b ++ formatText mask ts false c) := by
  have hbc : '\r' ∉ b ++ c := by
    rw [List.mem_append]
    rintro (hm | hm)
    · exact hb hm
    · exact hc hm
  rw [formatText_append mask ts a (b ++ c) ha hbc, formatText_append mask ts b c hb hc]

theorem formatText_nil (mask : List Char) (ts : Nat) :
    formatText mask ts false [] = [] := by
  unfold formatText normalizeLineEndings replaceCRLF
  dsimp only
  split
  · rfl
  · rfl

theorem not_mem_jsSlice (c : Char) (s : List Char) (a b : Int) (h : c ∉ s) :
    c ∉ jsSlice s a b := by
  intro hm
  unfold jsSlice at hm
  exact h (List.mem_of_mem_take (List.mem_of_mem_drop hm))

theorem not_mem_jsSliceFrom (c : Char) (s : List Char) (a : Int) (h : c ∉ s) :
    c ∉ jsSliceFrom s a := by
  intro hm
  unfold jsSliceFrom at hm
  exact h (List.mem_of_mem_drop hm)

theorem jsIdx_zero (len : Nat) : jsIdx len 0 = 0 := by
  unfold jsIdx
  rw [if_neg (by omega)]
  simp [Int.toNat]

theorem jsIdx_mono (len : Nat) {a b : Int} (h0 : 0 ≤ a) (hab : a ≤ b) :
    jsIdx len a ≤ jsIdx len b := by
  unfold jsIdx
  rw [if_neg (by omega), if_neg (by omega)]
  omega

theorem take_mid_drop (s : List Char) (a b : Nat) (h : a ≤ b) :
    s.take a ++ ((s.take b).drop a ++ s.drop b) = s := by
  have h1 : (s.take b).take a = s.take a := by
    rw [List.take_take, Nat.min_eq_left h]
  rw [← h1, ← List.append_assoc, List.take_append_drop, List.take_append_drop]

theorem jsSlice_two_append (s : List Char) (e : Int) :
    jsSlice s 0 e ++ jsSliceFrom s e = s := by
  unfold jsSlice jsSliceFrom
  rw [jsIdx_zero, List.drop_zero, List.take_append_drop]

theorem jsSlice_three_append (s : List Char) (a b : Int) (h0 : 0 ≤ a) (hab : a ≤ b) :
    jsSlice s 0 a ++ (jsSlice s a b ++ jsSliceFrom s b) = s := by
  unfold jsSlice jsSliceFrom
  rw [jsIdx_zero, List.drop_zero]
  exact take_mid_drop s _ _ (jsIdx_mono s.length h0 hab)

theorem chunks_before (s : List Char) (hs he : Int) (cur : Nat)
    (h0 : 0 ≤ hs) (h1 : hs ≤ he) (h2 : s.length ≤ cur) :
    jsSlice s 0 hs ++ (jsSlice s hs (min he (cur : Int)) ++ jsSliceFrom s he) = s := by
  have e1 : jsIdx s.length (min he (cur : Int)) = jsIdx s.length he := by
    unfold jsIdx
    rw [if_neg (by omega), if_neg (by omega)]
    omega
  unfold jsSlice jsSliceFrom
  rw [jsIdx_zero, List.drop_zero, e1]
  exact take_mid_drop s _ _ (jsIdx_mono s.length h0 h1)

theorem nonCursorText_currentLine (mask : List Char) (ts : Nat) (sc f : Bool)
    (before after : List Char) (hb : '\r' ∉ before) (ha : '\r' ∉ after) :
    nonCursorText (currentLineSegments mask ts sc f before after) =
      formatText mask ts false (before ++ after) := by
  unfold currentLineSegments nonCursorText isCursorSeg
  simp
  rw [formatText_append mask ts before after hb ha, ← List.append_assoc,
    jsSlice_two_append, jsSlice_two_append]

theorem nonCursorText_explicit (mask : List Char) (ts : Nat) (value : List Char)
    (cursorIndex : Nat) (hs he : Int) (hcr : '\r' ∉ value)
    (hval : validHighlightRange value.length hs he) :
    nonCursorText (explicitSegments mask ts (value.take cursorIndex)
        (value.drop cursorIndex) cursorIndex hs he) =
      formatText mask ts false value := by
  obtain ⟨h1, h0, h2⟩ := hval
  have hbefore : '\r' ∉ List.take cursorIndex value :=
    fun hm => hcr (List.mem_of_mem_take hm)
  have hafter : '\r' ∉ List.drop cursorIndex value :=
    fun hm => hcr (List.mem_of_mem_drop hm)
  have hlen : (List.take cursorIndex value).length ≤ cursorIndex := by
    rw [List.length_take]
    omega
  unfold explicitSegments nonCursorText isCursorSeg
  simp
  have regroup : ∀ (A B C D E F : List Char),
      A ++ (B ++ (C ++ (D ++ (E ++ F)))) = (A ++ (B ++ C)) ++ (D ++ (E ++ F)) := by
    intro A B C D E F
    simp [List.append_assoc]
  rw [regroup,
    ← formatText_append3 mask ts _ _ _
      (not_mem_jsSlice _ _ _ _ hbefore)
      (not_mem_jsSlice _ _ _ _ hbefore)
      (not_mem_jsSliceFrom _ _ _ hbefore),
    ← formatText_append3 mask ts _ _ _
      (not_mem_jsSlice _ _ _ _ hafter)
      (not_mem_jsSlice _ _ _ _ hafter)
      (not_mem_jsSliceFrom _ _ _ hafter),
    chunks_before _ hs he cursorIndex h0 (le_of_lt h1) hlen,
    jsSlice_three_append _ _ _ (by omega) (by omega),
    ← formatText_append mask ts _ _ hbefore hafter, List.take_append_drop]

theorem splitOnNl_ne_nil (t : List Char) : splitOnNl t ≠ [] := by
  induction t with
  | nil => simp [splitOnNl]
  | cons c rest ih =>
    simp only [splitOnNl]
    split
    · simp
    · cases h : splitOnNl rest with
      | nil => simp
      | cons l ls => simp [h]

theorem sumLenPlus_nil : sumLenPlus [] = 0 := rfl

theorem sumLenPlus_cons (l : List Char) (ls : List (List Char)) :
    sumLenPlus (l :: ls) = l.length + 1 + sumLenPlus ls := by
  simp [sumLenPlus]

theorem sumLenPlus_splitOnNl (t : List Char) :
    sumLenPlus (splitOnNl t) = t.length + 1 := by
  induction t with
  | nil => simp [splitOnNl, sumLenPlus]
  | cons c rest ih =>
    simp only [splitOnNl]
    split
    · rw [sumLenPlus_cons, ih]
      simp only [List.length_nil, List.length_cons]
      omega
    · cases h : splitOnNl rest with
      | nil => exact absurd h (splitOnNl_ne_nil rest)
      | cons l ls =>
        rw [h] at ih
        rw [sumLenPlus_cons] at ih ⊢
        simp only [List.length_cons]
        omega

theorem locateGo_round (ls : List (List Char)) :
    ∀ (cursor pos : Nat), pos ≤ cursor → cursor < pos + sumLenPlus ls →
    ∀ i, ∃ k col, locateGo ls cursor i pos = (i + k, col) ∧
      sumLenPlus (ls.take k) + col + pos = cursor := by
  induction ls with
  | nil =>
    intro cursor pos h1 h2 i
    exfalso
    rw [sumLenPlus_nil] at h2
    omega
  | cons l rest ih =>
    intro cursor pos h1 h2 i
    by_cases hc : cursor ≤ pos + l.length
    · refine ⟨0, cursor - pos, ?_, ?_⟩
      · simp [locateGo, h1, hc]
      · rw [List.take_zero, sumLenPlus_nil]
        omega
    · have hcond : ¬ (pos ≤ cursor ∧ cursor ≤ pos + l.length) := by
        intro h
        exact hc h.2
      have hstep : locateGo (l :: rest) cursor i pos =
          locateGo rest cursor (i + 1) (pos + l.length + 1) := by
        simp [locateGo, hcond]
      have h1' : pos + l.length + 1 ≤ cursor := by omega
      have h2' : cursor < (pos + l.length + 1) + sumLenPlus rest := by
        rw [sumLenPlus_cons] at h2
        omega
      obtain ⟨k, col, heq, hsum⟩ := ih cursor (pos + l.length + 1) h1' h2' (i + 1)
      refine ⟨k + 1, col, ?_, ?_⟩
      · rw [hstep, heq, show i + 1 + k = i + (k + 1) by omega]
      · rw [List.take_succ_cons, sumLenPlus_cons]
        omega

theorem locateGo_fst_bound (ls : List (List Char)) :
    ∀ (cursor i pos : Nat),
      (locateGo ls cursor i pos).1 < i + ls.length ∨
      locateGo ls cursor i pos = (0, 0) := by
  induction ls with
  | nil => intro cursor i pos; right; rfl
  | cons l rest ih =>
    intro cursor i pos
    simp only [locateGo]
    split
    · left
      simp
    · rcases ih cursor (i + 1) (pos + l.length + 1) with h | h
      · left
        simp only [List.length_cons]
        omega
      · right
        exact h

/-- C1: For every buffer and every offset `o` valid for the normalized
buffer, locating the cursor's (lineIndex, column) by scanning the
normalized buffer's lines, then converting the pair back to an absolute
offset as `Σ (length(line_i) + 1) + column`, yields `o` again. -/
theorem offset_line_roundtrip (buffer : List Char) (o : Nat)
    (h : o ≤ (normalizeLineEndings buffer).length) :
    toOffset (splitOnNl (normalizeLineEndings buffer))
      (locate (splitOnNl (normalizeLineEndings buffer)) o).1
      (locate (splitOnNl (normalizeLineEndings buffer)) o).2 = o := by
  set lines := splitOnNl (normalizeLineEndings buffer) with hlines
  have hlt : o < 0 + sumLenPlus lines := by
    rw [hlines, sumLenPlus_splitOnNl]
    omega
  obtain ⟨k, col, heq, hsum⟩ := locateGo_round lines o 0 (Nat.zero_le o) hlt 0
  unfold locate
  rw [heq]
  simp only [toOffset, Nat.zero_add]
  omega

/-- C2: With `showCursor` on, an up-arrow (resp. down-arrow) event
moves the cursor from `(lineIndex, column)` to line `lineIndex - 1`
(resp. `lineIndex + 1`) at column `min(column, length(targetLine))`, and is
a no-op on the first (resp. last) logical line; for buffer
`"Line1\nLine2"` with cursor 11, up-arrow moves the cursor to 5, and
inserting `"X"` there yields `"Line1X\nLine2"`. -/
theorem vertical_movement_sticky_column (value : List Char)
    (cursorIndex pasteLength : Nat) :
    ((handleInput ⟨none, none⟩ true value cursorIndex pasteLength [] upKey).value = value ∧
      (handleInput ⟨none, none⟩ true value cursorIndex pasteLength [] upKey).submitted
        = false ∧
      (handleInput ⟨none, none⟩ true value cursorIndex pasteLength [] upKey).changed
        = false ∧
      (if 0 < (locate (splitOnNl (normalizeLineEndings value)) cursorIndex).1 then
        (handleInput ⟨none, none⟩ true value cursorIndex pasteLength [] upKey).cursorIndex =
            toOffset (splitOnNl (normalizeLineEndings value))
              ((locate (splitOnNl (normalizeLineEndings value)) cursorIndex).1 - 1)
              (min (locate (splitOnNl (normalizeLineEndings value)) cursorIndex).2
                (((splitOnNl (normalizeLineEndings value)).get?
                    ((locate (splitOnNl (normalizeLineEndings value)) cursorIndex).1
                      - 1)).getD []).length) ∧
          (handleInput ⟨none, none⟩ true value cursorIndex pasteLength [] upKey).pasteLength
            = 0
      else
        (handleInput ⟨none, none⟩ true value cursorIndex pasteLength [] upKey).cursorIndex =
            cursorIndex ∧
          (handleInput ⟨none, none⟩ true value cursorIndex pasteLength [] upKey).pasteLength
            = pasteLength)) ∧
    ((handleInput ⟨none, none⟩ true value cursorIndex pasteLength [] downKey).value
        = value ∧
      (handleInput ⟨none, none⟩ true value cursorIndex pasteLength [] downKey).submitted
        = false ∧
      (handleInput ⟨none, none⟩ true value cursorIndex pasteLength [] downKey).changed
        = false ∧
      (if (locate (splitOnNl (normalizeLineEndings value)) cursorIndex).1 <
          (splitOnNl (normalizeLineEndings value)).length - 1 then
        (handleInput ⟨none, none⟩ true value cursorIndex pasteLength [] downKey).cursorIndex =
            toOffset (splitOnNl (normalizeLineEndings value))
              ((locate (splitOnNl (normalizeLineEndings value)) cursorIndex).1 + 1)
              (min (locate (splitOnNl (normalizeLineEndings value)) cursorIndex).2
                (((splitOnNl (normalizeLineEndings value)).get?
                    ((locate (splitOnNl (normalizeLineEndings value)) cursorIndex).1
                      + 1)).getD []).length) ∧
          (handleInput ⟨none, none⟩ true value cursorIndex pasteLength []
              downKey).pasteLength = 0
      else
        (handleInput ⟨none, none⟩ true value cursorIndex pasteLength [] downKey).cursorIndex
            = cursorIndex ∧
          (handleInput ⟨none, none⟩ true value cursorIndex pasteLength []
              downKey).pasteLength = pasteLength)) ∧
    (handleInput ⟨none, none⟩ true "Line1\nLine2".data 11 0 [] upKey).cursorIndex = 5 ∧
    (handleInput ⟨none, none⟩ true "Line1\nLine2".data 5 0 "X".data noKey).value =
      "Line1X\nLine2".data := by
  set lines := splitOnNl (normalizeLineEndings value) with hL
  set lc := locate lines cursorIndex with hlc
  set up := handleInput ⟨none, none⟩ true value cursorIndex pasteLength [] upKey with hup0
  set down := handleInput ⟨none, none⟩ true value cursorIndex pasteLength [] downKey
    with hdown0
  have hup : up =
      (if 0 < lc.1 then
        match lines.get? (lc.1 - 1) with
        | some targetLine =>
          ⟨value, toOffset lines (lc.1 - 1) (min lc.2 targetLine.length), 0, false, false⟩
        | none => ⟨value, cursorIndex, pasteLength, false, false⟩
      else ⟨value, cursorIndex, pasteLength, false, false⟩) := rfl
  have hdown : down =
      (if lc.1 < lines.length - 1 then
        match lines.get? (lc.1 + 1) with
        | some targetLine =>
          ⟨value, toOffset lines (lc.1 + 1) (min lc.2 targetLine.length), 0, false, false⟩
        | none => ⟨value, cursorIndex, pasteLength, false, false⟩
      else ⟨value, cursorIndex, pasteLength, false, false⟩) := rfl
  refine ⟨?_, ?_, by decide, by decide⟩
  · rw [hup]
    by_cases h : 0 < lc.1
    · have hbound : lc.1 < lines.length := by
        rcases locateGo_fst_bound lines cursorIndex 0 0 with hb | hb
        · simpa using hb
        · exfalso
          have : lc.1 = 0 := by
            rw [hlc]
            show (locateGo lines cursorIndex 0 0).1 = 0
            rw [hb]
          omega
      have hlt : lc.1 - 1 < lines.length := by omega
      have hget : lines.get? (lc.1 - 1) = some (lines.get ⟨lc.1 - 1, hlt⟩) :=
        List.get?_eq_get hlt
      rw [if_pos h, hget]
      simp [h, hget]
    · rw [if_neg h]
      simp [h]
  · rw [hdown]
    by_cases h : lc.1 < lines.length - 1
    · have hlt : lc.1 + 1 < lines.length := by omega
      have hget : lines.get? (lc.1 + 1) = some (lines.get ⟨lc.1 + 1, hlt⟩) :=
        List.get?_eq_get hlt
      rw [if_pos h, hget]
      simp [h, hget]
    · rw [if_neg h]
      simp [h]

/-- C8: Backspace and forward-delete behave identically: when the
cursor offset is positive they remove the single character before the
cursor and decrement the cursor; at offset 0 (including on an empty
buffer) they are a silent no-op that emits no buffer mutation. -/
theorem backspace_and_delete (value : List Char) (cursorIndex pasteLength : Nat)
    (h : cursorIndex ≤ value.length) :
    handleInput ⟨none, none⟩ true value cursorIndex pasteLength [] backspaceKey =
      handleInput ⟨none, none⟩ true value cursorIndex pasteLength [] deleteKey ∧
    (if 0 < cursorIndex then
      (handleInput ⟨none, none⟩ true value cursorIndex pasteLength []
            backspaceKey).value =
          value.take (cursorIndex - 1) ++ value.drop cursorIndex ∧
        (handleInput ⟨none, none⟩ true value cursorIndex pasteLength []
              backspaceKey).value.length + 1 = value.length ∧
        (handleInput ⟨none, none⟩ true value cursorIndex pasteLength []
            backspaceKey).cursorIndex = cursorIndex - 1 ∧
        (handleInput ⟨none, none⟩ true value cursorIndex pasteLength []
            backspaceKey).changed = true ∧
        (handleInput ⟨none, none⟩ true value cursorIndex pasteLength []
            backspaceKey).submitted = false ∧
        (handleInput ⟨none, none⟩ true value cursorIndex pasteLength []
            backspaceKey).pasteLength = 0
    else
      handleInput ⟨none, none⟩ true value cursorIndex pasteLength [] backspaceKey =
        ⟨value, cursorIndex, pasteLength, false, false⟩) := by
  have hbs : handleInput ⟨none, none⟩ true value cursorIndex pasteLength [] backspaceKey =
      (if 0 < cursorIndex then
        ⟨value.take (cursorIndex - 1) ++ value.drop cursorIndex,
          cursorIndex - 1, 0, false, true⟩
      else ⟨value, cursorIndex, pasteLength, false, false⟩) := rfl
  have hdel : handleInput ⟨none, none⟩ true value cursorIndex pasteLength [] deleteKey =
      (if 0 < cursorIndex then
        ⟨value.take (cursorIndex - 1) ++ value.drop cursorIndex,
          cursorIndex - 1, 0, false, true⟩
      else ⟨value, cursorIndex, pasteLength, false, false⟩) := rfl
  refine ⟨by rw [hbs, hdel], ?_⟩
  rw [hbs]
  by_cases hc : 0 < cursorIndex
  · rw [if_pos hc, if_pos hc]
    refine ⟨rfl, ?_, rfl, rfl, rfl, rfl⟩
    simp [List.length_take, List.length_drop]
    omega
  · rw [if_neg hc, if_neg hc]

/-- Witness for C8 at buffer `"ab"`, cursor 1. -/
theorem backspace_and_delete_witness :
    1 ≤ ("ab".data).length ∧
      handleInput ⟨none, none⟩ true "ab".data 1 0 [] backspaceKey =
        handleInput ⟨none, none⟩ true "ab".data 1 0 [] deleteKey :=
  ⟨by decide, (backspace_and_delete "ab".data 1 0 (by decide)).1⟩

/-- C10: Whenever an edit event both mutates the buffer and records a
paste length greater than 1 (i.e. the buffer value reflects the paste
insertion), the derived paste-highlight range satisfies the segmenter's
validity predicate, so a paste highlight is never silently discarded. -/
theorem paste_highlight_always_valid (keyBindings : KeyBindings) (showCursor : Bool)
    (value : List Char) (cursorIndex pasteLength : Nat) (input : List Char) (key : Key)
    (h : cursorIndex ≤ value.length) :
    (handleInput keyBindings showCursor value cursorIndex pasteLength input key).changed
        = true →
    1 < (handleInput keyBindings showCursor value cursorIndex pasteLength input key).pasteLength →
    hasValidHighlight
      (pasteHighlight true
        (handleInput keyBindings showCursor value cursorIndex pasteLength input key).cursorIndex
        (handleInput keyBindings showCursor value cursorIndex pasteLength input key).pasteLength)
      (handleInput keyBindings showCursor value cursorIndex pasteLength input key).value.length := by
  intro hch hp
  generalize hr : handleInput keyBindings showCursor value cursorIndex pasteLength
      input key = r at hch hp ⊢
  unfold handleInput at hr
  dsimp only at hr
  by_cases c1 : keyBindings.submit.getD (fun k => k.ret && k.ctrl) key = true
  · rw [if_pos c1] at hr
    subst hr
    exact absurd hch (by simp)
  rw [if_neg c1] at hr
  by_cases c2 : keyBindings.newline.getD (fun k => k.ret) key = true
  · rw [if_pos c2] at hr
    subst hr
    exact absurd hp (by dsimp only; omega)
  rw [if_neg c2] at hr
  by_cases c3 : key.tab = true ∨ (key.shift = true ∧ key.tab = true) ∨
      (key.ctrl = true ∧ input = ['c'])
  · rw [if_pos c3] at hr
    subst hr
    exact absurd hch (by simp)
  rw [if_neg c3] at hr
  by_cases c4 : (match keyBindings.newline with | some f => f key | none => false) = true
  · rw [if_pos c4] at hr
    subst hr
    exact absurd hp (by dsimp only; omega)
  rw [if_neg c4] at hr
  by_cases c5 : key.upArrow = true
  · rw [if_pos c5] at hr
    by_cases csc : showCursor = true
    · rw [if_pos csc] at hr
      subst hr
      exact absurd hch (by simp [upArrowResult_changed])
    · rw [if_neg csc] at hr
      subst hr
      exact absurd hch (by simp)
  rw [if_neg c5] at hr
  by_cases c6 : key.downArrow = true
  · rw [if_pos c6] at hr
    by_cases csc : showCursor = true
    · rw [if_pos csc] at hr
      subst hr
      exact absurd hch (by simp [downArrowResult_changed])
    · rw [if_neg csc] at hr
      subst hr
      exact absurd hch (by simp)
  rw [if_neg c6] at hr
  by_cases c7 : key.leftArrow = true
  · rw [if_pos c7] at hr
    by_cases csc : showCursor = true
    · rw [if_pos csc] at hr
      subst hr
      exact absurd hch (by simp)
    · rw [if_neg csc] at hr
      subst hr
      exact absurd hch (by simp)
  rw [if_neg c7] at hr
  by_cases c8 : key.rightArrow = true
  · rw [if_pos c8] at hr
    by_cases csc : showCursor = true
    · rw [if_pos csc] at hr
      subst hr
      exact absurd hch (by simp)
    · rw [if_neg csc] at hr
      subst hr
      exact absurd hch (by simp)
  rw [if_neg c8] at hr
  by_cases c9 : key.ret = true
  · rw [if_pos c9] at hr
    subst hr
    exact absurd hp (by dsimp only; omega)
  rw [if_neg c9] at hr
  by_cases c10 : key.backspace = true ∨ key.delete = true
  · rw [if_pos c10] at hr
    by_cases cbs : 0 < cursorIndex
    · rw [if_pos cbs] at hr
      subst hr
      exact absurd hp (by dsimp only; omega)
    · rw [if_neg cbs] at hr
      subst hr
      exact absurd hch (by simp)
  rw [if_neg c10] at hr
  by_cases c11 : input = []
  · rw [if_neg (fun hne => hne c11)] at hr
    subst hr
    exact absurd hch (by simp)
  rw [if_pos c11] at hr
  subst hr
  dsimp only at hp ⊢
  by_cases c12 : 1 < input.length
  · rw [if_pos c12] at hp ⊢
    unfold pasteHighlight
    rw [if_pos (show true = true ∧ 1 < input.length from ⟨rfl, c12⟩)]
    dsimp only [hasValidHighlight]
    unfold validHighlightRange
    refine ⟨?_, ?_, ?_⟩
    · omega
    · omega
    · simp only [List.length_append, List.length_take, List.length_drop]
      omega
  · rw [if_neg c12] at hp
    exact absurd hp (by omega)

/-- Witness for C10: pasting `"xyz"` into `"ab"` at cursor 1. -/
theorem paste_highlight_always_valid_witness :
    (1 ≤ ("ab".data).length) ∧
    hasValidHighlight
      (pasteHighlight true
        (handleInput ⟨none, none⟩ true "ab".data 1 0 "xyz".data noKey).cursorIndex
        (handleInput ⟨none, none⟩ true "ab".data 1 0 "xyz".data noKey).pasteLength)
      (handleInput ⟨none, none⟩ true "ab".data 1 0 "xyz".data noKey).value.length :=
  ⟨by decide,
    paste_highlight_always_valid ⟨none, none⟩ true "ab".data 1 0 "xyz".data noKey
      (by decide) (by decide) (by decide)⟩

/-- C4 counterexample: At `scrollOffset = 1`, `visibleRowCount = 2`,
`contentHeight = 0`, `markerHeight = 2`, the code leaves the offset at 1
while the claim's formula demands 0: the claim omits the code's truthiness
guard on `contentHeight`. -/
theorem scroll_update_claim_counterexample :
    nextScrollOffset 1 2 0 2 = 1 ∧ claimedScrollOffset 1 2 0 2 = 0 ∧ (1 : Nat) ≠ 0 := by
  decide

/-- C4 (amended): The scroll updater follows the claimed formula with
the pull-back branches guarded by `contentHeight ≠ 0`: snap above the
window to `max(0, cursorLineEnd - 1)`, snap below to
`cursorLineEnd - visibleRowCount`, and otherwise, when `contentHeight` is
nonzero, reset to 0 if `contentHeight < visibleRowCount`, pull back to
`contentHeight - visibleRowCount` if `contentHeight < scrollOffset +
visibleRowCount`, else leave unchanged (also unchanged when
`contentHeight = 0`). -/
theorem scroll_update_amended (prevOffset visibleRowCount contentHeight markerHeight : Nat) :
    nextScrollOffset prevOffset visibleRowCount contentHeight markerHeight =
      amendedScrollOffset prevOffset visibleRowCount contentHeight markerHeight := by
  unfold nextScrollOffset amendedScrollOffset
  dsimp only
  split_ifs <;> omega

/-- C5: For every configuration of the optional `rows` and `maxRows`
props and every measured content height, the number of visible rows is
`max(rows ?? maxRows ?? 1, min(maxRows ?? rows ?? 1, contentHeight))`. -/
theorem visible_rows_clamp (rows maxRows contentHeight : Nat) :
    visibleRows (some rows) (some maxRows) (some contentHeight)
        = max rows (min maxRows contentHeight) ∧
      visibleRows (some rows) none (some contentHeight)
        = max rows (min rows contentHeight) ∧
      visibleRows none (some maxRows) (some contentHeight)
        = max maxRows (min maxRows contentHeight) ∧
      visibleRows none none (some contentHeight) = max 1 (min 1 contentHeight) ∧
      ∀ r m : Option Nat, visibleRows r m (some contentHeight) =
        max (r.getD (m.getD 1)) (min (m.getD (r.getD 1)) contentHeight) :=
  ⟨rfl, rfl, rfl, rfl, fun _ _ => rfl⟩

/-- C6: With a mask set and text that is not the placeholder, every
character of the formatted output is a newline or a mask character; for a
single-character mask the output is exactly the normalized input with
every non-newline character replaced by the mask character (in particular
no tab expansion happens); the placeholder is never masked but
tab-expanded. -/
theorem mask_exclusivity (mask text : List Char) (tabSize : Nat) (m : Char)
    (hm : mask ≠ []) :
    (∀ c ∈ formatText mask tabSize false text, c = '\n' ∨ c ∈ mask) ∧
      formatText [m] tabSize false text =
        (normalizeLineEndings text).map (fun c => if c = '\n' then '\n' else m) ∧
      formatText mask tabSize true text =
        expandTabs (normalizeLineEndings text) tabSize := by
  refine ⟨?_, ?_, ?_⟩
  · intro c hc
    unfold formatText at hc
    rw [if_pos ⟨rfl, hm⟩] at hc
    generalize normalizeLineEndings text = s at hc
    induction s with
    | nil => simp [applyMask] at hc
    | cons a rest ih =>
      unfold applyMask at hc
      rw [List.mem_append] at hc
      rcases hc with hc | hc
      · by_cases ha : a = '\n'
        · rw [if_pos ha] at hc
          left
          simpa using hc
        · rw [if_neg ha] at hc
          right
          exact hc
      · exact ih hc
  · unfold formatText
    rw [if_pos ⟨rfl, by simp⟩]
    generalize normalizeLineEndings text = s
    induction s with
    | nil => rfl
    | cons a rest ih =>
      unfold applyMask
      rw [List.map_cons, ← ih]
      by_cases ha : a = '\n'
      · simp [ha]
      · simp [ha]
  · unfold formatText
    rw [if_neg (by simp)]

/-- Witness for C6 with mask `"*"` on `"a\tb\nc"`. -/
theorem mask_exclusivity_witness :
    (("*".data : List Char) ≠ []) ∧
      formatText "*".data 4 false "a\tb\nc".data =
        (normalizeLineEndings "a\tb\nc".data).map
          (fun c => if c = '\n' then '\n' else '*') :=
  ⟨by decide, (mask_exclusivity "*".data "a\tb\nc".data 4 '*' (by decide)).2.1⟩

/-- C7: A focused segmentation given an explicit highlight range that
is invalid (`end <= start`, `start < 0`, or `end > length`) is identical to
the segmentation with no highlight at all. -/
theorem invalid_highlight_fallback (value : List Char) (cursorIndex : Nat)
    (showCursor : Bool) (placeholder mask : List Char) (tabSize : Nat) (hs he : Int)
    (h : he ≤ hs ∨ hs < 0 ∨ (value.length : Int) < he) :
    buildSegments value cursorIndex true showCursor placeholder mask tabSize
        (some (hs, he)) =
      buildSegments value cursorIndex true showCursor placeholder mask tabSize none := by
  have hnv : ¬ validHighlightRange value.length hs he := by
    unfold validHighlightRange
    rintro ⟨h1, h2, h3⟩
    rcases h with h | h | h <;> omega
  unfold buildSegments
  by_cases hv : value = []
  · rw [if_pos hv, if_pos hv]
  · rw [if_neg hv, if_neg hv]
    dsimp only
    rw [if_neg hnv]

/-- Witness for C7: range (2, 2) on buffer `"ab"`. -/
theorem invalid_highlight_fallback_witness :
    ((2 : Int) ≤ 2 ∨ (2 : Int) < 0 ∨ ((("ab".data : List Char).length : Nat) : Int) < 2) ∧
      buildSegments "ab".data 1 true true [] [] 4 (some (2, 2)) =
        buildSegments "ab".data 1 true true [] [] 4 none :=
  ⟨by decide, invalid_highlight_fallback "ab".data 1 true [] [] 4 2 2 (by decide)⟩

/-- C9: On a focused, non-empty buffer: in the valid-explicit-highlight
branch the cursor-glyph segment is one space, last in the pre-cursor
group, regardless of `showCursor`; in the current-line branch the cursor
segment's text is one space exactly when `showCursor` is true, and empty
otherwise. -/
theorem cursor_glyph_asymmetry (value : List Char) (cursorIndex : Nat)
    (showCursor : Bool) (placeholder mask : List Char) (tabSize : Nat) (hs he : Int)
    (hv : value ≠ []) :
    (validHighlightRange value.length hs he →
      cursorSegs (buildSegments value cursorIndex true showCursor placeholder mask
          tabSize (some (hs, he))) = [⟨[' '], some SegType.cursor⟩] ∧
        (buildSegments value cursorIndex true showCursor placeholder mask tabSize
            (some (hs, he))).preCursor.getLast? = some ⟨[' '], some SegType.cursor⟩) ∧
    (∀ highlight : Option (Int × Int), ¬ hasValidHighlight highlight value.length →
      cursorSegs (buildSegments value cursorIndex true showCursor placeholder mask
          tabSize highlight) =
        [⟨(if showCursor = true then [' '] else []), some SegType.cursor⟩]) := by
  constructor
  · intro hval
    unfold buildSegments
    rw [if_neg hv]
    dsimp only
    rw [if_pos hval]
    unfold explicitSegments cursorSegs isCursorSeg
    simp
  · intro highlight hnv
    unfold buildSegments
    rw [if_neg hv]
    cases highlight with
    | none =>
      dsimp only
      unfold currentLineSegments cursorSegs isCursorSeg
      cases showCursor <;> simp
    | some hl =>
      obtain ⟨hs', he'⟩ := hl
      dsimp only
      rw [if_neg (show ¬ validHighlightRange value.length hs' he' from
        fun hval => hnv hval)]
      unfold currentLineSegments cursorSegs isCursorSeg
      cases showCursor <;> simp

/-- Witness for C9 on buffer `"ab"` with valid range (0, 1). -/
theorem cursor_glyph_asymmetry_witness :
    (("ab".data : List Char) ≠ []) ∧
      validHighlightRange ("ab".data : List Char).length 0 1 ∧
      cursorSegs (buildSegments "ab".data 1 true false [] [] 4 (some (0, 1))) =
        [⟨[' '], some SegType.cursor⟩] :=
  ⟨by decide, by decide,
    ((cursor_glyph_asymmetry "ab".data 1 false [] [] 4 0 1 (by decide)).1 (by decide)).1⟩

/-- C3 counterexample: The claim fails as stated: for the empty buffer
with non-empty placeholder, unfocused, the segment text concatenates to the
placeholder, not the (empty) formatted buffer; and for a buffer containing
a raw CRLF split by the cursor, the concatenation differs from the
formatted buffer. -/
theorem segment_concat_counterexample :
    (nonCursorText (buildSegments [] 0 false true "hi".data [] 4 none) = "hi".data ∧
        formatText ([] : List Char) 4 false [] = [] ∧
        "hi".data ≠ ([] : List Char)) ∧
      nonCursorText (buildSegments "a\r\nb".data 2 true true [] [] 4 none) ≠
        formatText [] 4 false "a\r\nb".data := by
  decide

/-- C3 (amended): For a normalized buffer (no carriage returns), the
concatenation of all segment texts with the cursor glyph excluded equals
the formatted buffer — except when the empty-buffer placeholder is
rendered (empty buffer, non-empty placeholder, unfocused), where it equals
the formatted placeholder instead. -/
theorem segment_concat_amended (value : List Char) (cursorIndex : Nat)
    (focus showCursor : Bool) (placeholder mask : List Char) (tabSize : Nat)
    (highlight : Option (Int × Int)) (hcr : '\r' ∉ value) :
    nonCursorText (buildSegments value cursorIndex focus showCursor placeholder mask
        tabSize highlight) =
      (if value = [] ∧ placeholder ≠ [] ∧ focus = false then
        formatText mask tabSize true placeholder
      else formatText mask tabSize false value) := by
  have hbefore : '\r' ∉ List.take cursorIndex value :=
    fun hm => hcr (List.mem_of_mem_take hm)
  have hafter : '\r' ∉ List.drop cursorIndex value :=
    fun hm => hcr (List.mem_of_mem_drop hm)
  by_cases hv : value = []
  · subst hv
    unfold buildSegments
    rw [if_pos rfl]
    by_cases hpf : placeholder ≠ [] ∧ focus = false
    · rw [if_pos hpf, if_pos ⟨rfl, hpf⟩]
      unfold nonCursorText isCursorSeg
      simp
    · rw [if_neg hpf, if_neg (fun hcon => hpf ⟨hcon.2.1, hcon.2.2⟩)]
      unfold nonCursorText isCursorSeg
      simp [formatText_nil]
  · rw [if_neg (fun hcon => hv hcon.1)]
    unfold buildSegments
    rw [if_neg hv]
    dsimp only
    by_cases hf : focus = false
    · rw [if_pos hf]
      unfold nonCursorText isCursorSeg
      simp
    · rw [if_neg hf]
      cases highlight with
      | none =>
        dsimp only
        rw [nonCursorText_currentLine mask tabSize showCursor focus _ _ hbefore hafter,
          List.take_append_drop]
      | some hl =>
        obtain ⟨hs, he⟩ := hl
        dsimp only
        by_cases hval : validHighlightRange value.length hs he
        · rw [if_pos hval]
          exact nonCursorText_explicit mask tabSize value cursorIndex hs he hcr hval
        · rw [if_neg hval]
          rw [nonCursorText_currentLine mask tabSize showCursor focus _ _ hbefore hafter,
            List.take_append_drop]

/-- Witness for C3 (amended) on buffer `"ab\ncd"`, cursor 4, focused. -/
theorem segment_concat_amended_witness :
    ('\r' ∉ "ab\ncd".data) ∧
      nonCursorText (buildSegments "ab\ncd".data 4 true true [] [] 4 none) =
        (if ("ab\ncd".data : List Char) = [] ∧ ([] : List Char) ≠ [] ∧ true = false then
          formatText [] 4 true []
        else formatText [] 4 false "ab\ncd".data) :=
  ⟨by decide, segment_concat_amended "ab\ncd".data 4 true true [] [] 4 none (by decide)⟩

/-- Witness for C1 at buffer `"ab\ncd"` and offset 4. -/
theorem offset_line_roundtrip_witness :
    4 ≤ (normalizeLineEndings "ab\ncd".data).length ∧
    toOffset (splitOnNl (normalizeLineEndings "ab\ncd".data))
      (locate (splitOnNl (normalizeLineEndings "ab\ncd".data)) 4).1
      (locate (splitOnNl (normalizeLineEndings "ab\ncd".data)) 4).2 = 4 :=
  ⟨by decide, offset_line_roundtrip "ab\ncd".data 4 (by decide)⟩

end Ink
